import Mathlib

/-!
Shallow embedding of the lucky-wheel application core (`src/app.py`):
the daily-quota tracker on `Player`, the weighted prize selector
`weighted_random_choice`, and the `/api/spin` route `spin`.

Dates are opaque strings (the code stores `last_spin_date` as an ISO
string and compares with `!=`).  The random draw `random.uniform(0, total)`
is modelled by an explicit rational argument `r`; the database is a pair
of lists, and a route's commit is the only point at which in-memory
mutations of an ORM object become persistent (the sessionmaker is
configured with autoflush disabled, and a session closed without commit
rolls back).
-/

/-- `Prize` row (`src/app.py` lines 59-73): id, name, weight, active. -/
structure Prize where
  id : Int
  name : String
  weight : Int
  active : Bool
deriving DecidableEq

/-- `Player` row (`src/app.py` lines 76-90). `last_spin_date` is nullable,
stored as a date string; `name` is nullable. -/
structure Player where
  id : Int
  name : Option String
  spins_per_day : Int
  last_spin_date : Option String
  spins_today : Int
  active : Bool
deriving DecidableEq

/-- `Player.spins_left_today` (`src/app.py` lines 92-97), with the current
date passed explicitly instead of read from the clock. -/
def Player.spins_left_today (p : Player) (today_str : String) : Int :=
  if p.last_spin_date ≠ some today_str then
    p.spins_per_day
  else
    max (p.spins_per_day - p.spins_today) 0

/-- Clamp of one weight, `max(int(p.weight or 0), 0)` (`src/app.py` line 140). -/
def clampWeight (w : Int) : Int := max w 0

/-- `total` of the clamped weights (`src/app.py` lines 140-141). -/
def clampedTotal (prizes : List Prize) : Int :=
  (prizes.map (fun p => clampWeight p.weight)).sum

/-- The accumulation loop of `weighted_random_choice`
(`src/app.py` lines 145-149): walk the zipped (prize, weight) list keeping
the running sum `upto`, returning the first prize with `r <= upto`;
`none` when the loop falls through. -/
def pickLoop (r : ℚ) : List (Prize × Int) → ℚ → Option Prize
  | [], _ => none
  | (p, w) :: rest, upto =>
    if r ≤ upto + (w : ℚ) then some p else pickLoop r rest (upto + (w : ℚ))

/-- `weighted_random_choice` (`src/app.py` lines 138-150) with the drawn
value `r` of `random.uniform(0, total)` passed explicitly.  The
`return prizes[-1]` fallback after the loop is `prizes.getLast?`. -/
def weighted_random_choice (prizes : List Prize) (r : ℚ) : Option Prize :=
  let weights := prizes.map (fun p => clampWeight p.weight)
  let total := weights.sum
  if total ≤ 0 then none
  else
    match pickLoop r (prizes.zip weights) 0 with
    | some p => some p
    | none => prizes.getLast?

/-- Persistent store: the two tables. -/
structure DB where
  players : List Player
  prizes : List Prize
deriving DecidableEq

/-- `db.query(Player).filter(Player.id == pid, Player.active == True).first()`
(`src/app.py` line 330). -/
def findActivePlayer (db : DB) (pid : Int) : Option Player :=
  (db.players.filter (fun p => p.id == pid && p.active)).head?

/-- Insertion step of the `order_by(Prize.id)` model. -/
def insertById (p : Prize) : List Prize → List Prize
  | [] => [p]
  | q :: rest => if p.id ≤ q.id then p :: q :: rest else q :: insertById p rest

/-- Model of `order_by(Prize.id)`: insertion sort on the id column. -/
def sortById : List Prize → List Prize
  | [] => []
  | p :: rest => insertById p (sortById rest)

/-- The spin route's prize query
`db.query(Prize).filter(Prize.active == True, Prize.weight > 0).order_by(Prize.id).all()`
(`src/app.py` lines 344-349). -/
def activePositivePrizes (db : DB) : List Prize :=
  sortById (db.prizes.filter (fun p => p.active && 0 < p.weight))

/-- The date-rollover reset applied in-memory by the spin route
(`src/app.py` lines 334-336). -/
def rollover (p : Player) (today_str : String) : Player :=
  if p.last_spin_date ≠ some today_str then
    { p with last_spin_date := some today_str, spins_today := 0 }
  else p

/-- Effective usage today under the data-model invariant that
`spins_today` is meaningful only relative to `last_spin_date`. -/
def effectiveUsed (p : Player) (today_str : String) : Int :=
  if p.last_spin_date = some today_str then p.spins_today else 0

/-- ORM commit of a mutated player object: the row with that primary key
is replaced. -/
def updatePlayer (players : List Player) (p : Player) : List Player :=
  players.map (fun q => if q.id = p.id then p else q)

/-- The counter increment `player.spins_today += 1` (`src/app.py` line 357)
applied to the rolled-over row. -/
def bumpSpins (p : Player) : Player :=
  { p with spins_today := p.spins_today + 1 }

/-- Outcomes of the `/api/spin` route, one per `return` site
(`src/app.py` lines 318-366). -/
inductive SpinResult where
  | notAuthenticated
  | playerNotFound
  | quotaExceeded
  | noActivePrizes
  | cannotChoosePrize
  | success (prize : Prize) (spins_left : Int)
deriving DecidableEq

/-- Whether a spin outcome is the success case. -/
def SpinResult.isSuccess : SpinResult → Bool
  | .success _ _ => true
  | _ => false

/-- The `/api/spin` route (`src/app.py` lines 318-366) as a function of the
session's player id, the current date string, the drawn value and the
database; it returns the response and the database after the request
(unchanged on every path that returns before `db.commit()`). -/
def spin (pid? : Option Int) (today_str : String) (r : ℚ) (db : DB) :
    SpinResult × DB :=
  match pid? with
  | none => (SpinResult.notAuthenticated, db)
  | some pid =>
    match findActivePlayer db pid with
    | none => (SpinResult.playerNotFound, db)
    | some player0 =>
      let player := rollover player0 today_str
      if player.spins_per_day ≤ player.spins_today then
        (SpinResult.quotaExceeded, db)
      else
        let prizes := activePositivePrizes db
        if prizes = [] then
          (SpinResult.noActivePrizes, db)
        else
          match weighted_random_choice prizes r with
          | none => (SpinResult.cannotChoosePrize, db)
          | some prize =>
            let player2 := { player with spins_today := player.spins_today + 1 }
            (SpinResult.success prize
               (max (player2.spins_per_day - player2.spins_today) 0),
             { db with players := updatePlayer db.players player2 })

/-- Cumulative clamped weight of the first `i+1` prizes, the value of `upto`
after the loop iteration for index `i`. -/
def cumWeight (prizes : List Prize) (i : Nat) : Int :=
  ((prizes.take (i + 1)).map (fun p => clampWeight p.weight)).sum

/-- Prize with weight 10 for the `[10, 0, 5]` example. -/
def prizeA : Prize := { id := 1, name := "A", weight := 10, active := true }

/-- Prize with weight 0 for the `[10, 0, 5]` example. -/
def prizeB : Prize := { id := 2, name := "B", weight := 0, active := true }

/-- Prize with weight 5 for the `[10, 0, 5]` example. -/
def prizeC : Prize := { id := 3, name := "C", weight := 5, active := true }

/-- Ambient request-handling state that `weighted_random_choice` could in
principle read but does not: the database, the Flask session's player id and
admin flag, and the configured admin key. -/
structure Env where
  db : DB
  sessionPlayer : Option Int
  sessionAdmin : Bool
  adminKey : String

/-- `weighted_random_choice` as executed inside a request: its body
(`src/app.py` lines 138-150) references only its argument and the drawn
value, never the ambient state, so the wrapper ignores `env`. -/
def weighted_random_choice_run (env : Env) (prizes : List Prize) (r : ℚ) :
    Option Prize :=
  weighted_random_choice prizes r

/-- The quota portion of one spin request (`src/app.py` lines 334-342, 357-358)
as one compute step over a snapshot of the player row: rollover reset, quota
check, increment.  Returns whether the spin was granted and the row value the
request commits (the snapshot's transformation; an ungranted request commits
nothing). -/
def spinQuotaCompute (p : Player) (today_str : String) : Bool × Player :=
  let p1 := rollover p today_str
  if p1.spins_per_day ≤ p1.spins_today then (false, p)
  else (true, { p1 with spins_today := p1.spins_today + 1 })

/-- Local state of one in-flight request handler: the row snapshot it has
read, and its outcome once it has committed. -/
structure HandlerState where
  snapshot : Option Player
  outcome : Option Bool

/-- Shared-store state for two concurrent spin requests on one player row. -/
structure ConcState where
  row : Player
  h1 : HandlerState
  h2 : HandlerState

/-- One scheduler step of a handler against the shared row.  The handler
first reads the row (no lock is taken in the source: the query at
`src/app.py` line 330 is a plain SELECT), then computes and commits: a
granted request overwrites the row, an ungranted one leaves it alone. -/
def stepHandler (row : Player) (today_str : String) (h : HandlerState) :
    Player × HandlerState :=
  match h.snapshot, h.outcome with
  | none, _ => (row, { h with snapshot := some row })
  | some snap, none =>
    let g := spinQuotaCompute snap today_str
    (if g.1 then g.2 else row, { h with outcome := some g.1 })
  | some _, some _ => (row, h)

/-- Run a schedule, each entry picking which handler takes the next step
(`true` for handler 1). -/
def runSchedule (today_str : String) : List Bool → ConcState → ConcState
  | [], s => s
  | pick :: rest, s =>
    if pick then
      let step := stepHandler s.row today_str s.h1
      runSchedule today_str rest { s with row := step.1, h1 := step.2 }
    else
      let step := stepHandler s.row today_str s.h2
      runSchedule today_str rest { s with row := step.1, h2 := step.2 }

/-- The C7 scenario's player: quota 1, no spin recorded today. -/
def p7 : Player :=
  { id := 1, name := some "P", spins_per_day := 1, last_spin_date := none,
    spins_today := 0, active := true }

/-- Both handlers idle at the start, sharing the row of `p7`. -/
def conc0 : ConcState :=
  { row := p7, h1 := { snapshot := none, outcome := none },
    h2 := { snapshot := none, outcome := none } }

/-- A player whose quota for date `d1` is exhausted. -/
def pQ : Player :=
  { id := 2, name := some "Q", spins_per_day := 1, last_spin_date := some "d1",
    spins_today := 1, active := true }

/-- Store holding `pQ` and one weighted prize. -/
def dbQ : DB := { players := [pQ], prizes := [prizeA] }

/-- An administrator-misconfigured player with a negative daily quota. -/
def pNeg : Player :=
  { id := 9, name := none, spins_per_day := -1, last_spin_date := some "d1",
    spins_today := 0, active := true }

/-- Store holding `pNeg` and one weighted prize. -/
def dbNeg : DB := { players := [pNeg], prizes := [prizeA] }

/-- A player with quota 2 who has never spun. -/
def pOk : Player :=
  { id := 3, name := some "O", spins_per_day := 2, last_spin_date := none,
    spins_today := 0, active := true }

/-- Store holding `pOk` and one weighted prize. -/
def dbOk : DB := { players := [pOk], prizes := [prizeA] }

/-- The store `dbOk` after `pOk` wins `prizeA` on day `d1`. -/
def dbOk2 : DB :=
  { players := [{ pOk with last_spin_date := some "d1", spins_today := 1 }],
    prizes := [prizeA] }

/-- Zipping a list with its own mapped weights is mapping to pairs. -/
theorem zip_map_pair (l : List Prize) (f : Prize → Int) :
    l.zip (l.map f) = l.map (fun p => (p, f p)) := by
  induction l with
  | nil => rfl
  | cons p rest ih => simpa [List.zip] using ih

/-- The accumulation loop only ever returns an entry of its input list. -/
theorem pickLoop_mem (r : ℚ) :
    ∀ (l : List (Prize × Int)) (upto : ℚ) (p : Prize),
      pickLoop r l upto = some p → ∃ w, (p, w) ∈ l := by
  intro l
  induction l with
  | nil => intro upto p h; simp [pickLoop] at h
  | cons x rest ih =>
    intro upto p h
    rw [pickLoop] at h
    by_cases hc : r ≤ upto + (x.2 : ℚ)
    · rw [if_pos hc] at h
      exact ⟨x.2, by simp [← Option.some_inj.mp h]⟩
    · rw [if_neg hc] at h
      obtain ⟨w, hw⟩ := ih _ p h
      exact ⟨w, List.mem_cons_of_mem _ hw⟩

/-- A list with positive clamped total is nonempty. -/
theorem ne_nil_of_clampedTotal_pos (prizes : List Prize)
    (h : 0 < clampedTotal prizes) : prizes ≠ [] := by
  intro hnil
  rw [hnil] at h
  simp [clampedTotal] at h

/-- With a positive clamped total the selector returns some member of the
input list, for every drawn value. -/
theorem wrc_some_of_total_pos (prizes : List Prize) (r : ℚ)
    (hpos : 0 < clampedTotal prizes) :
    ∃ p, p ∈ prizes ∧ weighted_random_choice prizes r = some p := by
  have hne := ne_nil_of_clampedTotal_pos prizes hpos
  have ht : ¬ (prizes.map fun p => clampWeight p.weight).sum ≤ 0 := by
    simp only [clampedTotal] at hpos
    exact not_le_of_lt hpos
  rw [weighted_random_choice]
  rw [if_neg ht]
  cases hp : pickLoop r (prizes.zip (prizes.map fun p => clampWeight p.weight)) 0 with
  | some p =>
    obtain ⟨w, hw⟩ := pickLoop_mem r _ _ _ hp
    rw [zip_map_pair] at hw
    obtain ⟨q, hq, hqe⟩ := List.mem_map.mp hw
    exact ⟨p, by rw [← (Prod.mk.injEq _ _ _ _).mp hqe |>.1]; exact hq, rfl⟩
  | none =>
    refine ⟨prizes.getLast hne, ?_, ?_⟩
    · exact List.getLast_mem hne
    · rw [List.getLast?_eq_getLast_of_ne_nil hne]

/-- C2: `weighted_random_choice` clamps each weight to `max(weight, 0)` and
returns `none` exactly when the clamped total is `≤ 0` (for every drawn
value); whenever the clamped total is positive it returns some prize of the
input list for every drawn value `r` in `[0, total]`. -/
theorem weighted_random_choice_none_iff (prizes : List Prize) (r : ℚ) :
    (weighted_random_choice prizes r = none ↔ clampedTotal prizes ≤ 0) ∧
    (0 < clampedTotal prizes → 0 ≤ r → r ≤ (clampedTotal prizes : ℚ) →
      ∃ p, p ∈ prizes ∧ weighted_random_choice prizes r = some p) := by
  constructor
  · constructor
    · intro h
      by_contra ht
      obtain ⟨p, _, hp⟩ := wrc_some_of_total_pos prizes r (lt_of_not_le ht)
      rw [h] at hp
      exact Option.noConfusion hp
    · intro ht
      rw [weighted_random_choice]
      simp only [clampedTotal] at ht
      rw [if_pos ht]
  · intro hpos _ _
    exact wrc_some_of_total_pos prizes r hpos

/-- Concrete instance of the C2 theorem: one prize of weight 5, draw 3. -/
theorem weighted_random_choice_none_iff_witness :
    0 < clampedTotal [prizeA] ∧ (0 : ℚ) ≤ 3 ∧ (3 : ℚ) ≤ (clampedTotal [prizeA] : ℚ) ∧
    ∃ p, p ∈ [prizeA] ∧ weighted_random_choice [prizeA] 3 = some p := by
  have h1 : clampedTotal [prizeA] = 10 := by decide
  refine ⟨by decide, by norm_num, by rw [h1]; norm_num, ?_⟩
  exact (weighted_random_choice_none_iff [prizeA] 3).2 (by decide) (by norm_num)
    (by rw [h1]; norm_num)

/-- The loop returns the entry at the first index whose running sum reaches
the drawn value. -/
theorem pickLoop_first_hit (r : ℚ) :
    ∀ (l : List (Prize × Int)) (upto : ℚ) (i : Nat) (hi : i < l.length),
      r ≤ upto + ((l.take (i + 1)).map (fun x => (x.2 : ℚ))).sum →
      (∀ j, j < i → ¬ r ≤ upto + ((l.take (j + 1)).map (fun x => (x.2 : ℚ))).sum) →
      pickLoop r l upto = some (l.get ⟨i, hi⟩).1 := by
  intro l
  induction l with
  | nil => intro upto i hi; simp at hi
  | cons x rest ih =>
    intro upto i hi hhit hmiss
    match i with
    | 0 =>
      have h0 : r ≤ upto + (x.2 : ℚ) := by simpa using hhit
      rw [pickLoop, if_pos h0]
      rfl
    | Nat.succ i' =>
      have hm0 : ¬ r ≤ upto + (x.2 : ℚ) := by simpa using hmiss 0 (Nat.succ_pos i')
      rw [pickLoop, if_neg hm0]
      have hi' : i' < rest.length := Nat.lt_of_succ_lt_succ (by simpa using hi)
      have hhit' : r ≤ (upto + (x.2 : ℚ)) +
          ((rest.take (i' + 1)).map (fun x => (x.2 : ℚ))).sum := by
        rw [add_assoc]
        simpa [List.take_succ_cons] using hhit
      have hmiss' : ∀ j, j < i' →
          ¬ r ≤ (upto + (x.2 : ℚ)) + ((rest.take (j + 1)).map (fun x => (x.2 : ℚ))).sum := by
        intro j hj
        rw [add_assoc]
        simpa [List.take_succ_cons] using hmiss (j + 1) (Nat.succ_lt_succ hj)
      exact ih (upto + (x.2 : ℚ)) i' hi' hhit' hmiss'

/-- Partial sums over the zipped (prize, clamped weight) list are the casts of
`cumWeight` prefixes. -/
theorem zipped_take_sum (prizes : List Prize) (k : Nat) :
    (((prizes.map (fun p => (p, clampWeight p.weight))).take k).map
        (fun x => (x.2 : ℚ))).sum =
      ((((prizes.take k).map (fun p => clampWeight p.weight)).sum : Int) : ℚ) := by
  rw [← List.map_take, List.map_map, Int.cast_list_sum, List.map_map]
  rfl

/-- C5: `weighted_random_choice` walks the list in the caller-supplied order
and returns the first prize whose cumulative clamped weight reaches the drawn
value; on weights `[10, 0, 5]` a draw of 0 yields the first prize and a draw
of 15 the third, never the zero-weight second. -/
theorem weighted_random_choice_first_reached :
    (∀ (prizes : List Prize) (r : ℚ) (i : Nat) (hi : i < prizes.length),
      0 < clampedTotal prizes →
      r ≤ ((cumWeight prizes i : Int) : ℚ) →
      (∀ j, j < i → ¬ r ≤ ((cumWeight prizes j : Int) : ℚ)) →
      weighted_random_choice prizes r = some (prizes.get ⟨i, hi⟩)) ∧
    weighted_random_choice [prizeA, prizeB, prizeC] 0 = some prizeA ∧
    weighted_random_choice [prizeA, prizeB, prizeC] 15 = some prizeC := by
  refine ⟨?_,
    by norm_num [weighted_random_choice, clampWeight, pickLoop, prizeA, prizeB, prizeC],
    by norm_num [weighted_random_choice, clampWeight, pickLoop, prizeA, prizeB, prizeC]⟩
  intro prizes r i hi hpos hhit hmiss
  rw [weighted_random_choice]
  simp only [clampedTotal] at hpos
  rw [if_neg (not_le_of_lt hpos), zip_map_pair]
  have hlen : i < (prizes.map (fun p => (p, clampWeight p.weight))).length := by
    simpa using hi
  have hhit2 : r ≤ (0 : ℚ) +
      (((prizes.map (fun p => (p, clampWeight p.weight))).take (i + 1)).map
        (fun x => (x.2 : ℚ))).sum := by
    rw [zipped_take_sum, zero_add]
    exact hhit
  have hmiss2 : ∀ j, j < i → ¬ r ≤ (0 : ℚ) +
      (((prizes.map (fun p => (p, clampWeight p.weight))).take (j + 1)).map
        (fun x => (x.2 : ℚ))).sum := by
    intro j hj
    rw [zipped_take_sum, zero_add]
    exact hmiss j hj
  rw [pickLoop_first_hit r _ 0 i hlen hhit2 hmiss2]
  simp [List.get_map]

/-- Concrete instance of the C5 theorem: a draw of 11 over weights
`[10, 0, 5]` passes the first two prizes and lands on the third. -/
theorem weighted_random_choice_first_reached_witness :
    weighted_random_choice [prizeA, prizeB, prizeC] 11 = some prizeC := by
  have h := weighted_random_choice_first_reached.1 [prizeA, prizeB, prizeC] 11 2
    (by decide) (by decide) (by norm_num [cumWeight, clampWeight, prizeA, prizeB, prizeC])
    ?_
  · exact h
  · intro j hj
    interval_cases j <;> norm_num [cumWeight, clampWeight, prizeA, prizeB, prizeC]

/-- C1: when the stored date differs from today `spins_left_today` returns the
full `spins_per_day` quota, ignoring the stale counter, and when the stored
date is today it returns `max(spins_per_day - spins_today, 0)`. -/
theorem spins_left_today_spec (p : Player) (today_str : String) :
    (p.last_spin_date ≠ some today_str →
      p.spins_left_today today_str = p.spins_per_day) ∧
    (p.last_spin_date = some today_str →
      p.spins_left_today today_str = max (p.spins_per_day - p.spins_today) 0) := by
  constructor
  · intro h
    simp [Player.spins_left_today, h]
  · intro h
    simp [Player.spins_left_today, h]

/-- Concrete instance of the C1 theorem: a player with quota 3, a stale
counter of 5 from date `d1`, checked on day `d2` and on day `d1`. -/
theorem spins_left_today_spec_witness :
    (Player.mk 1 (some "W") 3 (some "d1") 5 true).spins_left_today "d2" = 3 ∧
    (Player.mk 1 (some "W") 3 (some "d1") 5 true).spins_left_today "d1" =
      max (3 - 5) 0 := by
  refine ⟨(spins_left_today_spec _ "d2").1 (by decide), ?_⟩
  exact (spins_left_today_spec _ "d1").2 rfl

/-- C8: `weighted_random_choice` is a pure function of the prize list and the
value drawn from the randomness source: its result does not depend on the
ambient request state (database, session, configuration), so two runs with
the same prize list and the same drawn value return the same prize. -/
theorem weighted_random_choice_run_pure (env1 env2 : Env)
    (prizes : List Prize) (r : ℚ) :
    weighted_random_choice_run env1 prizes r =
      weighted_random_choice_run env2 prizes r := rfl

/-- The rolled-over row fails the route's quota check exactly when the
effective usage today already reaches the quota. -/
theorem rollover_quota_check (p : Player) (t : String) :
    ((rollover p t).spins_per_day ≤ (rollover p t).spins_today) ↔
      p.spins_per_day ≤ effectiveUsed p t := by
  by_cases h : p.last_spin_date = some t
  · simp [rollover, effectiveUsed, h]
  · simp [rollover, effectiveUsed, h]

/-- Every outcome of the spin route other than success returns the database
unchanged: each such branch returns before `db.commit()`. -/
theorem spin_error_keeps_db (pid? : Option Int) (today_str : String) (r : ℚ)
    (db : DB) (h : (spin pid? today_str r db).1.isSuccess = false) :
    (spin pid? today_str r db).2 = db := by
  rcases pid? with _ | pid
  · rfl
  · rw [spin] at h ⊢
    cases hf : findActivePlayer db pid with
    | none => simp [hf]
    | some player0 =>
      simp only [hf]
      by_cases hq : (rollover player0 today_str).spins_per_day ≤
          (rollover player0 today_str).spins_today
      · simp [hq]
      · simp only [if_neg hq]
        by_cases hpz : activePositivePrizes db = []
        · simp [hpz]
        · simp only [if_neg hpz]
          cases hw : weighted_random_choice (activePositivePrizes db) r with
          | none => simp [hw]
          | some prize =>
            simp only [hf, if_neg hq, if_neg hpz, hw] at h
            simp [SpinResult.isSuccess] at h

/-- A spin request for a player whose effective usage reaches the quota is
rejected with the quota error and the database is returned unchanged. -/
theorem spin_rejects_of_quota (db : DB) (pid : Int) (player : Player)
    (today_str : String) (r : ℚ)
    (hfind : findActivePlayer db pid = some player)
    (hused : player.spins_per_day ≤ effectiveUsed player today_str) :
    spin (some pid) today_str r db = (SpinResult.quotaExceeded, db) := by
  have hq := (rollover_quota_check player today_str).mpr hused
  rw [spin]
  simp [hfind, hq]

/-- C3: when the player's effective usage today (after the date-rollover
reset) already reaches `spins_per_day`, the spin route rejects with the quota
error and leaves the persisted player state untouched; repeating the call
rejects again without any further change; and every failing outcome of the
route leaves the database unchanged (no partial increment is committed). -/
theorem spin_quota_reject (db : DB) (pid : Int) (player : Player)
    (today_str : String) (r : ℚ)
    (hfind : findActivePlayer db pid = some player)
    (hused : player.spins_per_day ≤ effectiveUsed player today_str) :
    spin (some pid) today_str r db = (SpinResult.quotaExceeded, db) ∧
    spin (some pid) today_str r (spin (some pid) today_str r db).2 =
      (SpinResult.quotaExceeded, db) ∧
    (∀ (pid2? : Option Int) (t2 : String) (r2 : ℚ) (db2 : DB),
      (spin pid2? t2 r2 db2).1.isSuccess = false →
      (spin pid2? t2 r2 db2).2 = db2) := by
  have h1 := spin_rejects_of_quota db pid player today_str r hfind hused
  refine ⟨h1, ?_, fun pid2? t2 r2 db2 h => spin_error_keeps_db pid2? t2 r2 db2 h⟩
  rw [h1]
  exact h1

/-- Concrete instance of the C3 theorem: player `pQ` has used its single
daily spin on `d1`; a spin request on `d1` is rejected twice with no change
to the store. -/
theorem spin_quota_reject_witness :
    spin (some 2) "d1" 0 dbQ = (SpinResult.quotaExceeded, dbQ) ∧
    spin (some 2) "d1" 0 (spin (some 2) "d1" 0 dbQ).2 =
      (SpinResult.quotaExceeded, dbQ) := by
  have h := spin_quota_reject dbQ 2 pQ "d1" 0 (by rfl) (by decide)
  exact ⟨h.1, h.2.1⟩

/-- C4 as stated fails on the code: a player with `spins_per_day = -1` and a
stale `last_spin_date` gets `spins_left_today = -1`, not the claimed 0. -/
theorem spins_left_neg_quota_counterexample :
    pNeg.spins_left_today "d2" ≠ 0 := by decide

/-- C4 amended: for a player with `spins_per_day ≤ 0` and a non-negative
stored counter, `spins_left_today` is never positive — it equals 0 whenever
the stored date is today or the quota is exactly 0, while with a negative
quota and a stale date it returns `spins_per_day` itself (a negative value)
— and such a player is never eligible: the spin route always rejects with
the quota error, not with any other error. -/
theorem spins_nonpos_never_eligible (p : Player) (today_str : String)
    (hq : p.spins_per_day ≤ 0) (hst : 0 ≤ p.spins_today) :
    p.spins_left_today today_str ≤ 0 ∧
    ((p.last_spin_date = some today_str ∨ p.spins_per_day = 0) →
      p.spins_left_today today_str = 0) ∧
    (p.last_spin_date ≠ some today_str →
      p.spins_left_today today_str = p.spins_per_day) ∧
    (∀ (db : DB) (pid : Int) (r : ℚ),
      findActivePlayer db pid = some p →
      spin (some pid) today_str r db = (SpinResult.quotaExceeded, db)) := by
  have hused : p.spins_per_day ≤ effectiveUsed p today_str := by
    rw [effectiveUsed]
    by_cases h : p.last_spin_date = some today_str
    · rw [if_pos h]; exact le_trans hq hst
    · rw [if_neg h]; exact hq
  refine ⟨?_, ?_, ?_, ?_⟩
  · rw [Player.spins_left_today]
    by_cases h : p.last_spin_date = some today_str
    · simp only [h, ne_eq, not_true_eq_false, if_false]
      omega
    · simp only [ne_eq, h, not_false_eq_true, if_true]
      exact hq
  · rintro (h | h)
    · simp only [Player.spins_left_today, h, ne_eq, not_true_eq_false, if_false]
      omega
    · rw [Player.spins_left_today]
      by_cases hd : p.last_spin_date = some today_str
      · simp only [hd, ne_eq, not_true_eq_false, if_false]
        omega
      · simp only [ne_eq, hd, not_false_eq_true, if_true]
        exact h
  · intro h
    simp only [Player.spins_left_today, ne_eq, h, not_false_eq_true, if_true]
  · intro db pid r hfind
    exact spin_rejects_of_quota db pid p today_str r hfind hused

/-- Concrete instance of the amended C4 theorem: the misconfigured player
`pNeg` has no remaining spins in the positive sense and a spin request on a
new day is rejected. -/
theorem spins_nonpos_never_eligible_witness :
    pNeg.spins_left_today "d2" ≤ 0 ∧
    spin (some 9) "d2" 0 dbNeg = (SpinResult.quotaExceeded, dbNeg) := by
  have h := spins_nonpos_never_eligible pNeg "d2" (by decide) (by decide)
  exact ⟨h.1, h.2.2.2 dbNeg 9 0 (by rfl)⟩

/-- Membership in an insertion step of the id sort. -/
theorem mem_insertById (p q : Prize) (l : List Prize) :
    q ∈ insertById p l ↔ q = p ∨ q ∈ l := by
  induction l with
  | nil => simp [insertById]
  | cons x rest ih =>
    rw [insertById]
    by_cases h : p.id ≤ x.id
    · simp only [if_pos h, List.mem_cons]
    · simp only [if_neg h, List.mem_cons, ih]
      tauto

/-- The id sort of the prize query preserves membership. -/
theorem mem_sortById (l : List Prize) (q : Prize) : q ∈ sortById l ↔ q ∈ l := by
  induction l with
  | nil => simp [sortById]
  | cons x rest ih => simp [sortById, mem_insertById, ih]

/-- Every prize the spin route hands to the selector has positive weight. -/
theorem activePositivePrizes_weight_pos (db : DB) (q : Prize)
    (hq : q ∈ activePositivePrizes db) : 0 < q.weight := by
  rw [activePositivePrizes, mem_sortById] at hq
  have h := (List.mem_filter.mp hq).2
  simp only [Bool.and_eq_true, decide_eq_true_eq] at h
  exact h.2

/-- A nonempty list of positive-weight prizes has positive clamped total. -/
theorem clampedTotal_pos_of_pos_weights (prizes : List Prize)
    (hne : prizes ≠ []) (hpos : ∀ p ∈ prizes, 0 < p.weight) :
    0 < clampedTotal prizes := by
  rw [clampedTotal]
  refine List.sum_pos _ ?_ ?_
  · intro x hx
    obtain ⟨p, hp, rfl⟩ := List.mem_map.mp hx
    have := hpos p hp
    rw [clampWeight]
    omega
  · intro hmap
    exact hne (List.map_eq_nil.mp hmap)

/-- C9: on a nonempty prize list in which every weight is positive — the
exact shape the spin route supplies after its active/positive-weight filter —
`weighted_random_choice` never returns `none` for any drawn value, and the
route's "Cannot choose prize" branch is therefore unreachable: no spin
request ever yields that outcome. -/
theorem weighted_random_choice_pos_never_none (prizes : List Prize) (r : ℚ)
    (hne : prizes ≠ []) (hpos : ∀ p ∈ prizes, 0 < p.weight) :
    weighted_random_choice prizes r ≠ none ∧
    (∀ (pid? : Option Int) (t : String) (r2 : ℚ) (db : DB),
      (spin pid? t r2 db).1 ≠ SpinResult.cannotChoosePrize) := by
  constructor
  · obtain ⟨p, _, hp⟩ :=
      wrc_some_of_total_pos prizes r (clampedTotal_pos_of_pos_weights prizes hne hpos)
    rw [hp]
    exact Option.noConfusion
  · intro pid? t r2 db
    rcases pid? with _ | pid
    · rw [spin]; exact SpinResult.noConfusion
    · rw [spin]
      cases hf : findActivePlayer db pid with
      | none => simp
      | some player0 =>
        simp only
        by_cases hq : (rollover player0 t).spins_per_day ≤
            (rollover player0 t).spins_today
        · simp [hq]
        · simp only [if_neg hq]
          by_cases hpz : activePositivePrizes db = []
          · simp [hpz]
          · simp only [if_neg hpz]
            obtain ⟨p, _, hp⟩ := wrc_some_of_total_pos (activePositivePrizes db) r2
              (clampedTotal_pos_of_pos_weights _ hpz
                (fun q hq2 => activePositivePrizes_weight_pos db q hq2))
            rw [hp]
            simp

/-- Concrete instance of the C9 theorem: one positively weighted prize,
draw 2; the selector answers and a concrete spin request cannot reach the
"Cannot choose prize" branch. -/
theorem weighted_random_choice_pos_never_none_witness :
    weighted_random_choice [prizeA] 2 ≠ none ∧
    (spin (some 3) "d1" 2 dbOk).1 ≠ SpinResult.cannotChoosePrize := by
  have h := weighted_random_choice_pos_never_none [prizeA] 2 (by decide) (by decide)
  exact ⟨h.1, h.2 (some 3) "d1" 2 dbOk⟩

/-- C7 as stated fails on the code: the route takes no lock and performs no
compare-and-swap around the read-check-increment sequence, so the schedule
in which both handlers read the player row before either commits makes both
requests observe available quota for a quota-1 player with no spin today:
both are granted, and the final counter records a single spin (a lost
update), not the claimed exactly-one grant. -/
theorem concurrent_double_grant :
    (runSchedule "d1" [true, false, true, false] conc0).h1.outcome = some true ∧
    (runSchedule "d1" [true, false, true, false] conc0).h2.outcome = some true ∧
    (runSchedule "d1" [true, false, true, false] conc0).row.spins_today = 1 := by
  refine ⟨?_, ?_, ?_⟩ <;> decide

/-- C6: the spin route's checks happen in order with mutually exclusive
outcomes: with a player id in session it fails with the player error exactly
when the active-player lookup finds nothing (missing or inactive row);
otherwise it fails with the quota error exactly when the rolled-over usage
already reaches the quota; otherwise, on the active positive-weight prize
list, it fails with the no-prize error exactly when the selector returns
none (equivalently, when that list is empty); otherwise it succeeds with the
selector's prize and the remaining spin count, committing the updated row. -/
theorem spin_case_order (db : DB) (pid : Int) (today_str : String) (r : ℚ) :
    (findActivePlayer db pid = none →
      spin (some pid) today_str r db = (SpinResult.playerNotFound, db)) ∧
    (∀ player0, findActivePlayer db pid = some player0 →
      ((rollover player0 today_str).spins_per_day ≤
          (rollover player0 today_str).spins_today →
        spin (some pid) today_str r db = (SpinResult.quotaExceeded, db)) ∧
      ((rollover player0 today_str).spins_today <
          (rollover player0 today_str).spins_per_day →
        (weighted_random_choice (activePositivePrizes db) r = none →
          activePositivePrizes db = [] ∧
          spin (some pid) today_str r db = (SpinResult.noActivePrizes, db)) ∧
        (∀ prize,
          weighted_random_choice (activePositivePrizes db) r = some prize →
          spin (some pid) today_str r db =
            (SpinResult.success prize
               (max ((rollover player0 today_str).spins_per_day -
                  ((rollover player0 today_str).spins_today + 1)) 0),
             { db with
                 players := updatePlayer db.players
                   (bumpSpins (rollover player0 today_str)) })))) := by
  refine ⟨?_, ?_⟩
  · intro hf
    rw [spin]
    simp [hf]
  · intro player0 hf
    refine ⟨?_, ?_⟩
    · intro hq
      rw [spin]
      simp [hf, hq]
    · intro hlt
      have hq : ¬ ((rollover player0 today_str).spins_per_day ≤
          (rollover player0 today_str).spins_today) := not_le.mpr hlt
      refine ⟨?_, ?_⟩
      · intro hwnone
        have hemp : activePositivePrizes db = [] := by
          by_contra hne
          obtain ⟨p, _, hp⟩ := wrc_some_of_total_pos (activePositivePrizes db) r
            (clampedTotal_pos_of_pos_weights _ hne
              (fun q hq2 => activePositivePrizes_weight_pos db q hq2))
          rw [hwnone] at hp
          exact Option.noConfusion hp
        refine ⟨hemp, ?_⟩
        rw [spin]
        simp [hf, hq, hemp]
      · intro prize hw
        have hne : activePositivePrizes db ≠ [] := by
          intro hemp
          rw [hemp] at hw
          simp [weighted_random_choice] at hw
        rw [spin]
        simp [hf, hq, hne, hw, bumpSpins]

/-- Concrete instance of the C6 theorem: `pOk` spins on day `d1` with a draw
of 4 and receives `prizeA` with one spin left, the store recording the spin. -/
theorem spin_case_order_witness :
    spin (some 3) "d1" 4 dbOk =
      (SpinResult.success prizeA
         (max ((rollover pOk "d1").spins_per_day -
            ((rollover pOk "d1").spins_today + 1)) 0),
       { dbOk with
           players := updatePlayer dbOk.players (bumpSpins (rollover pOk "d1")) }) := by
  have h := ((spin_case_order dbOk 3 "d1" 4).2 pOk (by rfl)).2 (by decide)
  exact h.2 prizeA (by
    norm_num [activePositivePrizes, sortById, insertById, weighted_random_choice,
      clampWeight, pickLoop, dbOk, prizeA])

/-- The rollover reset keeps the player's id. -/
theorem rollover_id (p : Player) (t : String) : (rollover p t).id = p.id := by
  rw [rollover]
  split <;> rfl

/-- A successful lookup returns a stored, active row with the requested id. -/
theorem findActivePlayer_mem (db : DB) (pid : Int) (p : Player)
    (h : findActivePlayer db pid = some p) :
    p ∈ db.players ∧ p.id = pid ∧ p.active = true := by
  rw [findActivePlayer] at h
  cases hl : db.players.filter (fun q => q.id == pid && q.active) with
  | nil =>
    rw [hl] at h
    exact absurd h (by simp)
  | cons x xs =>
    rw [hl] at h
    simp only [List.head?_cons, Option.some_inj] at h
    subst h
    have hmem : x ∈ db.players.filter (fun q => q.id == pid && q.active) := by
      rw [hl]
      exact List.mem_cons_self _ _
    have h2 := List.mem_filter.mp hmem
    have h3 := h2.2
    simp only [Bool.and_eq_true, beq_iff_eq] at h3
    exact ⟨h2.1, h3.1, h3.2⟩

/-- C10: a successful spin changes only the spinning player's row, and in it
only `last_spin_date` (set to today) and `spins_today` (set to one more than
its post-rollover value): the row's id, name, quota and active flag, every
other player's row, and the whole prize table are unchanged. -/
theorem spin_success_frame (db : DB) (pid : Int) (today_str : String) (r : ℚ)
    (prize : Prize) (left : Int) (db2 : DB)
    (hnodup : (db.players.map Player.id).Nodup)
    (h : spin (some pid) today_str r db = (SpinResult.success prize left, db2)) :
    db2.prizes = db.prizes ∧
    db2.players = db.players.map (fun q =>
      if q.id = pid then
        { q with last_spin_date := some today_str,
                 spins_today := effectiveUsed q today_str + 1 }
      else q) := by
  rw [spin] at h
  cases hf : findActivePlayer db pid with
  | none =>
    rw [hf] at h
    simp at h
  | some player0 =>
    rw [hf] at h
    have hmem := findActivePlayer_mem db pid player0 hf
    by_cases hq : (rollover player0 today_str).spins_per_day ≤
        (rollover player0 today_str).spins_today
    · simp only [if_pos hq] at h
      simp at h
    · simp only [if_neg hq] at h
      by_cases hpz : activePositivePrizes db = []
      · simp only [if_pos hpz] at h
        simp at h
      · simp only [if_neg hpz] at h
        cases hw : weighted_random_choice (activePositivePrizes db) r with
        | none =>
          rw [hw] at h
          simp at h
        | some wprize =>
          rw [hw] at h
          simp only [Prod.mk.injEq, SpinResult.success.injEq] at h
          obtain ⟨⟨-, -⟩, hdb2⟩ := h
          subst hdb2
          refine ⟨rfl, ?_⟩
          show updatePlayer db.players (bumpSpins (rollover player0 today_str)) = _
          have hpid : (bumpSpins (rollover player0 today_str)).id = pid := by
            have hr : (bumpSpins (rollover player0 today_str)).id =
                (rollover player0 today_str).id := rfl
            rw [hr, rollover_id]
            exact hmem.2.1
          rw [updatePlayer]
          apply List.map_congr_left
          intro q hqmem
          by_cases hid : q.id = pid
          · have hq0 : q = player0 :=
              List.inj_on_of_nodup_map hnodup hqmem hmem.1
                (by rw [hid]; exact hmem.2.1.symm)
            subst hq0
            rw [if_pos (by rw [hpid]; exact hmem.2.1), if_pos hmem.2.1]
            obtain ⟨i, nm, spd, last, st, act⟩ := q
            by_cases hd : last = some today_str <;>
              simp [rollover, effectiveUsed, bumpSpins, hd]
          · rw [if_neg (by rw [hpid]; exact hid), if_neg hid]

/-- Concrete instance of the C10 theorem: after `pOk` wins `prizeA` on day
`d1`, the prize table is untouched and the player table changed only in the
spinning player's date and counter fields. -/
theorem spin_success_frame_witness :
    dbOk2.prizes = dbOk.prizes ∧
    dbOk2.players = dbOk.players.map (fun q =>
      if q.id = 3 then
        { q with last_spin_date := some "d1",
                 spins_today := effectiveUsed q "d1" + 1 }
      else q) := by
  have hrun : spin (some 3) "d1" 4 dbOk = (SpinResult.success prizeA 1, dbOk2) := by
    norm_num [spin, findActivePlayer, rollover, activePositivePrizes, sortById,
      insertById, weighted_random_choice, clampWeight, pickLoop, updatePlayer,
      dbOk, dbOk2, pOk, prizeA]
    decide
  exact spin_success_frame dbOk 3 "d1" 4 prizeA 1 dbOk2 (by decide) hrun
